import Mathlib

/-!
Verification model of `src/js/puck.js` (Puck.js Web Bluetooth interface library).

The source is a single-threaded, event-driven JavaScript module.  We embed it
shallowly: the connection object's mutable variables become fields of a state
record `Conn`, and every asynchronous callback of the source (promise
resolution of a characteristic write, an incoming notification, the
`gattserverdisconnected` listener, a user call) becomes one `Act` action
consumed by a deterministic `step` function.  Because the JavaScript runtime is
single threaded, every execution of the source is a sequence of such atomic
handler runs, so `run c acts = acts.foldl step c` ranges over exactly the
behaviours of the source given a schedule of transport completions and user
calls.  Payload strings become `List Nat` (one entry per character code,
`str2ab` at lines 63-70 maps characters to bytes one to one).

Ghost fields (`nextId`, `pendingResult`, `resolved`, and the trace lists
`sent`, `fired`, `emitted`, `cbCalls`) record observable history; they are
written only where the corresponding observable event happens in the source
and are never read by the modelled code paths, except `pendingResult`, which
records whether a `writeValue` promise has an outstanding resolution (the
transport resolves each issued write exactly once, so a `.result` action is
processed only when a write is actually in flight).
-/

/-- Maximum chunk size in bytes; `var CHUNKSIZE = 16;` at src/js/puck.js:53. -/
def CHUNKSIZE : Nat := 16

/-- One entry of `txDataQueue` (line 102 `txDataQueue.push({data:data,callback:callback})`).
`data` is the remaining payload; the source sets `txItem.data = undefined` once the last
chunk is taken (line 111), which we model as `[]` (the `substr` branch at line 114 always
leaves a nonempty remainder, so `[]` and `undefined` coincide).  `hasCb` records whether a
completion callback was supplied, and `id` is a ghost identifier naming the request. -/
structure TxItem where
  id : Nat
  data : List Nat
  hasCb : Bool
deriving DecidableEq

/-- Events emitted via `connection.emit` (line 76): `open` (line 170),
`data` (line 157), `close` (line 95). -/
inductive CEvent where
  | opened
  | dataEv (d : List Nat)
  | closed
deriving DecidableEq

/-- State of one connection object created by `connect` (lines 73-176), together
with ghost trace fields.  Boolean fields model presence of the corresponding
JavaScript variable (`btServer`, `txCharacteristic`, `rxCharacteristic` are
`undefined` when the field is `false`).  `gattConnected` models the physical
GATT link (true between a successful `device.gatt.connect()` and the
`btServer.disconnect()` call or an external disconnect); `rxListener` models
whether the `characteristicvaluechanged` listener of line 155 is attached. -/
structure Conn where
  gattConnected : Bool
  btServer : Bool
  rxListener : Bool
  txCharacteristic : Bool
  rxCharacteristic : Bool
  isOpen : Bool
  txDataQueue : List TxItem
  txInProgress : Bool
  pendingResult : Bool
  resolved : Nat
  nextId : Nat
  sent : List (List Nat)
  fired : List Nat
  emitted : List CEvent
  cbCalls : List Bool
deriving DecidableEq

/-- The `connection.close` function (lines 87-98): if `btServer` is set,
disconnect it and clear the characteristic references; then either emit
`close` (if the connection was open) or invoke the pending `connect` callback
with `null` (recorded as `false` in `cbCalls`).  If `btServer` is already
cleared the whole call is a no-op. -/
def close (c : Conn) : Conn :=
  if c.btServer = false then c
  else
    let c1 := { c with gattConnected := false, btServer := false,
                       txCharacteristic := false, rxCharacteristic := false }
    if c.isOpen then { c1 with isOpen := false, emitted := c1.emitted ++ [CEvent.closed] }
    else { c1 with cbCalls := c1.cbCalls ++ [false] }

/-- One execution of the inner `writeChunk` function (lines 105-118 up to the
`writeValue` call): take the first `CHUNKSIZE` bytes of the head request (the
whole remainder if shorter, lines 109-115), set `txInProgress = true` and issue
the chunk to `txCharacteristic.writeValue`.  If `txCharacteristic` has been
cleared by a close, the `writeValue` call throws a TypeError which the `.catch`
at lines 127-131 receives: the queue is discarded and the connection closed.
The `txDataQueue = []` guard branch is unreachable in the source (`writeChunk`
is only called with a nonempty queue). -/
def writeChunk1 (c : Conn) : Conn :=
  match c.txDataQueue with
  | [] => c
  | it :: rest =>
    let chunk := it.data.take CHUNKSIZE
    let c1 := { c with txDataQueue := { it with data := it.data.drop CHUNKSIZE } :: rest,
                       txInProgress := true }
    if c1.txCharacteristic then
      { c1 with sent := c1.sent ++ [chunk], pendingResult := true }
    else
      close { c1 with txDataQueue := [] }

/-- Resolution of the `writeValue` promise (the `.then` handler at lines
118-126 for `ok = true`, the `.catch` handler at lines 127-131 for
`ok = false`).  On success: if the head request's payload is exhausted, shift
it off the queue and invoke its completion callback (line 121-122) — when no
callback was supplied, `txItem.callback()` throws a TypeError that the
`.catch` receives (queue discarded, connection closed, `txInProgress` left
`true`); then clear `txInProgress` and, if the queue is nonempty, run
`writeChunk` again (lines 124-126).  On failure: discard the queue and close
(lines 129-130); `txInProgress` is deliberately left `true`, matching the
source. -/
def onResult (c : Conn) (ok : Bool) : Conn :=
  if c.pendingResult = false then c
  else
    let c1 := { c with pendingResult := false, resolved := c.resolved + 1 }
    if ok then
      match c1.txDataQueue with
      | [] => close { c1 with txDataQueue := [] }
      | it :: rest =>
        if it.data = [] then
          let c2 := { c1 with txDataQueue := rest }
          if it.hasCb then
            let c3 := { c2 with fired := c2.fired ++ [it.id], txInProgress := false }
            if c3.txDataQueue = [] then c3 else writeChunk1 c3
          else
            close { c2 with txDataQueue := [] }
        else
          let c2 := { c1 with txInProgress := false }
          if c2.txDataQueue = [] then c2 else writeChunk1 c2
    else
      close { c1 with txDataQueue := [] }

/-- The `connection.write` function (lines 100-103): a silent no-op when
`txCharacteristic` is unavailable; otherwise push the request and start
draining if no chunk write is in progress. -/
def enqueueWrite (c : Conn) (data : List Nat) (hasCb : Bool) : Conn :=
  if c.txCharacteristic = false then c
  else
    let c1 := { c with txDataQueue := c.txDataQueue ++ [⟨c.nextId, data, hasCb⟩],
                       nextId := c.nextId + 1 }
    if c1.txInProgress = false then writeChunk1 c1 else c1

/-- Delivery of a `characteristicvaluechanged` notification (lines 155-158):
the listener emits a `data` event with the received bytes.  The transport
delivers notifications only while the GATT link is up and the listener is
attached. -/
def notifyRx (c : Conn) (d : List Nat) : Conn :=
  if c.gattConnected && c.rxListener then
    { c with emitted := c.emitted ++ [CEvent.dataEv d] }
  else c

/-- Atomic events of the single-threaded runtime: a `connection.write` call, a
`writeValue` promise resolution, an incoming notification, an explicit
`connection.close()` call, and the `gattserverdisconnected` event (lines
139-142, which runs `connection.close()` after the link has dropped). -/
inductive Act where
  | enqueue (data : List Nat) (hasCb : Bool)
  | result (ok : Bool)
  | notify (d : List Nat)
  | closeCall
  | disconnected
deriving DecidableEq

/-- One atomic handler run of the source. -/
def step (c : Conn) (a : Act) : Conn :=
  match a with
  | .enqueue data hasCb => enqueueWrite c data hasCb
  | .result ok => onResult c ok
  | .notify d => notifyRx c d
  | .closeCall => close c
  | .disconnected => close { c with gattConnected := false }

/-- Run a schedule of atomic events. -/
def run (c : Conn) (as : List Act) : Conn :=
  as.foldl step c

/-- The connection object as first created by `connect` (lines 74-85): nothing
resolved yet, queue empty, all references absent. -/
def freshConn : Conn :=
  { gattConnected := false, btServer := false, rxListener := false,
    txCharacteristic := false, rxCharacteristic := false, isOpen := false,
    txDataQueue := [], txInProgress := false, pendingResult := false,
    resolved := 0, nextId := 0, sent := [], fired := [], emitted := [],
    cbCalls := [] }

/-- The step of the negotiation promise chain (lines 135-174) at which the
first rejection occurs. -/
inductive NegFail where
  | atRequestDevice
  | atGattConnect
  | atGetService
  | atGetRxChar
  | atStartNotifications
  | atGetTxChar
deriving DecidableEq

/-- Whether the GATT session was established (i.e. `btServer = server` at line
146 ran) before the given failure point. -/
def gattEstablished : NegFail → Bool
  | .atRequestDevice => false
  | .atGattConnect => false
  | _ => true

/-- The negotiation promise chain of `connect` (lines 135-174), given the point
of first failure (`none` means every step succeeded).  Each `.then` handler
runs in order; a rejection skips straight to the `.catch` at lines 171-174,
which calls `connection.close()`.  On full success (lines 165-170): reset the
write queue, mark the connection open, invoke the caller's callback with the
connection handle (recorded as `true` in `cbCalls`), and emit `open`. -/
def negotiate (fail : Option NegFail) : Conn :=
  match fail with
  | some .atRequestDevice => close freshConn
  | some .atGattConnect => close freshConn
  | some .atGetService =>
      close { freshConn with gattConnected := true, btServer := true }
  | some .atGetRxChar =>
      close { freshConn with gattConnected := true, btServer := true }
  | some .atStartNotifications =>
      close { freshConn with gattConnected := true, btServer := true,
                             rxCharacteristic := true, rxListener := true }
  | some .atGetTxChar =>
      close { freshConn with gattConnected := true, btServer := true,
                             rxCharacteristic := true, rxListener := true }
  | none =>
      { freshConn with gattConnected := true, btServer := true,
                       rxCharacteristic := true, rxListener := true,
                       txCharacteristic := true,
                       txDataQueue := [], txInProgress := false,
                       isOpen := true, cbCalls := [true],
                       emitted := [CEvent.opened] }

/-- A freshly opened connection: the state after a fully successful
negotiation. -/
def openConn : Conn := negotiate none

/-- A connection whose GATT session reference has been cleared and whose link
is down: the terminal `Closed` state. -/
def ClosedConn (c : Conn) : Prop :=
  c.gattConnected = false ∧ c.btServer = false ∧ c.txCharacteristic = false ∧
  c.isOpen = false

instance (c : Conn) : Decidable (ClosedConn c) := by
  unfold ClosedConn; infer_instance

/-- The chunks that `writeChunk` (lines 109-115) still issues for a head
request whose remaining payload is `p`: repeatedly `take CHUNKSIZE` /
`drop CHUNKSIZE` until the payload is exhausted.  An empty remainder issues
nothing (the request is complete). -/
def chunksRem (p : List Nat) : List (List Nat) :=
  if p = [] then []
  else p.take CHUNKSIZE :: chunksRem (p.drop CHUNKSIZE)
termination_by p.length
decreasing_by
  rename_i h
  simp [CHUNKSIZE, List.length_drop]
  have := List.length_pos.mpr h
  omega

/-- The full chunk sequence the write queue emits for a payload `p`: the first
chunk is issued by the `writeChunk` call inside `connection.write` (line 103),
the rest by the success handler's recursion.  A fresh payload always issues at
least one chunk (an empty payload issues one empty chunk: at line 109 the
length-0 payload takes the `data.length <= CHUNKSIZE` branch). -/
def chunks (p : List Nat) : List (List Nat) :=
  p.take CHUNKSIZE :: chunksRem (p.drop CHUNKSIZE)

/-- Number of transport writes a payload needs. -/
def numChunks (p : List Nat) : Nat := (chunks p).length

/-- The chunk writes still to be issued for a queue whose head request has
remaining payload `rem` and whose later requests are `tail` (full payloads). -/
def chunkSeq (rem : List Nat) (tail : List TxItem) : List (List Nat) :=
  chunksRem rem ++ (tail.map fun it => chunks it.data).flatten

/-- Request ids whose completion callback has run after `n` successful chunk
resolutions, for a queue with head id `i`, head remaining payload `rem` (one
chunk of the head in flight), and later requests `tail`.  The head completes
when its remaining chunks and the in-flight one have all resolved. -/
def firedSeq (i : Nat) (rem : List Nat) (tail : List TxItem) (n : Nat) : List Nat :=
  if (chunksRem rem).length + 1 ≤ n then
    i :: (match tail with
      | [] => []
      | it :: tail2 => firedSeq it.id (it.data.drop CHUNKSIZE) tail2
          (n - ((chunksRem rem).length + 1)))
  else []

/-- Number of whole requests among payloads `ps` completed by `n` successful
chunk resolutions, counted front to back. -/
def completedCount : List (List Nat) → Nat → Nat
  | [], _ => 0
  | p :: ps, n => if numChunks p ≤ n then completedCount ps (n - numChunks p) + 1 else 0

/-- Queue items for payloads `ps` enqueued back to back, with ghost ids
starting at `base`. -/
def mkItems (base : Nat) : List (List Nat) → List TxItem
  | [] => []
  | p :: ps => ⟨base, p, true⟩ :: mkItems (base + 1) ps

/-- The quiescence poll of the facade `write` (lines 185-194).  `maxTime` is
the remaining poll budget, `buf` the receive buffer contents so far, and each
element of `ws` lists the `data` events that arrive during one 250 ms window
(the handler at lines 209-212 appends each to `connection.received` and sets
`connection.hadData`).  At each tick: if data arrived and the budget is
nonzero (`connection.hadData && maxTime--`), decrement the budget and wait
another window; otherwise invoke the callback with the buffer.  Returns
`some (ticks, value)` where `ticks` counts the 250 ms timeouts that ran before
the callback fired with `value`, or `none` if the modelled window list ends
with the timer still pending. -/
def quiescePoll (maxTime : Nat) (buf : List Nat) : List (List (List Nat)) → Option (Nat × List Nat)
  | [] => none
  | w :: ws =>
    let buf1 := buf ++ w.flatten
    if w ≠ [] ∧ maxTime ≠ 0 then
      match quiescePoll (maxTime - 1) buf1 ws with
      | none => none
      | some (n, v) => some (n + 1, v)
    else
      some (1, buf1)

/-- The `onWritten` completion callback of the facade `write` (lines 182-196),
run once the payload is fully flushed.  With a callback, start the quiescence
poll; the first component lists the invocations of the caller's callback, the
second is the receive buffer afterwards (cleared at line 191 after the
callback runs).  Without a callback the buffer is simply cleared (line 195). -/
def onWritten (hasCb : Bool) (ws : List (List (List Nat))) : List (List Nat) × List Nat :=
  if hasCb then
    match quiescePoll 10 [] ws with
    | some (_, v) => ([v], [])
    | none => ([], (ws.map List.flatten).flatten)
  else ([], [])

/-- The callback the facade `write` passes to `connect` (lines 203-214), run
with the negotiation outcome `puck`.  Returns the invocations of the caller's
callback together with whether a TypeError propagates out of the handler.  On
failure (`puck = none`, i.e. `callback(null)` ran inside `connection.close`):
the handler sets the module-level `connection` to `undefined` and, if the
caller supplied a callback, invokes it with `null` — but there is no `return`,
so execution falls through to `connection.received = ""` (line 208), which
dereferences `undefined` and throws; with no caller callback, `callback(null)`
at line 206 itself calls `undefined` and throws. -/
def facadeOnConnected (hasCb : Bool) (puck : Option Conn) : List (Option (List Nat)) × Bool :=
  match puck with
  | none => if hasCb then ([none], true) else ([], true)
  | some _ => ([], false)

example : chunks [1, 2, 3] = [[1, 2, 3]] := by
  rw [chunks, chunksRem]
  simp [CHUNKSIZE]

example : run openConn [.enqueue [7] true, .result true] =
    { openConn with nextId := 1, resolved := 1, sent := [[7]], fired := [0] } := by
  decide

example : (run openConn [.enqueue [7] false, .result true]).isOpen = false := by
  decide

/-! Basic properties of the chunk split. -/

lemma chunksRem_nil : chunksRem [] = [] := by
  rw [chunksRem]
  simp

lemma chunksRem_cons (p : List Nat) (h : p ≠ []) :
    chunksRem p = p.take CHUNKSIZE :: chunksRem (p.drop CHUNKSIZE) := by
  rw [chunksRem]
  simp [h]

lemma chunksRem_flatten (p : List Nat) : (chunksRem p).flatten = p := by
  induction p using chunksRem.induct with
  | case1 => simp [chunksRem_nil]
  | case2 p h ih =>
    rw [chunksRem_cons p h]
    simp [ih]

lemma chunks_flatten (p : List Nat) : (chunks p).flatten = p := by
  rw [chunks]
  simp [chunksRem_flatten]

lemma chunksRem_length_le (p : List Nat) : ∀ c ∈ chunksRem p, c.length ≤ CHUNKSIZE := by
  induction p using chunksRem.induct with
  | case1 => simp [chunksRem_nil]
  | case2 p h ih =>
    rw [chunksRem_cons p h]
    intro c hc
    rcases List.mem_cons.mp hc with hc | hc
    · subst hc
      simp
    · exact ih c hc

lemma chunks_length_le (p : List Nat) : ∀ c ∈ chunks p, c.length ≤ CHUNKSIZE := by
  rw [chunks]
  intro c hc
  rcases List.mem_cons.mp hc with hc | hc
  · subst hc
    simp
  · exact chunksRem_length_le _ c hc

lemma chunksRem_eq_nil_iff (p : List Nat) : chunksRem p = [] ↔ p = [] := by
  constructor
  · intro h
    by_contra hp
    rw [chunksRem_cons p hp] at h
    exact List.cons_ne_nil _ _ h
  · intro h
    subst h
    exact chunksRem_nil

lemma chunksRem_dropLast_full (p : List Nat) :
    ∀ c ∈ (chunksRem p).dropLast, c.length = CHUNKSIZE := by
  induction p using chunksRem.induct with
  | case1 => simp [chunksRem_nil]
  | case2 p h ih =>
    rw [chunksRem_cons p h]
    by_cases hd : p.drop CHUNKSIZE = []
    · simp [hd, chunksRem_nil]
    · have hne : chunksRem (p.drop CHUNKSIZE) ≠ [] := by
        simp [chunksRem_eq_nil_iff, hd]
      rw [List.dropLast_cons_of_ne_nil hne]
      intro c hc
      rcases List.mem_cons.mp hc with hc | hc
      · subst hc
        have hlen : CHUNKSIZE < p.length := by
          have := List.length_drop CHUNKSIZE p
          have hpos := List.length_pos.mpr hd
          omega
        simp [List.length_take]
        omega
      · exact ih c hc

lemma chunks_dropLast_full (p : List Nat) :
    ∀ c ∈ (chunks p).dropLast, c.length = CHUNKSIZE := by
  rw [chunks]
  by_cases hd : p.drop CHUNKSIZE = []
  · simp [hd, chunksRem_nil]
  · have hne : chunksRem (p.drop CHUNKSIZE) ≠ [] := by
      simp [chunksRem_eq_nil_iff, hd]
    rw [List.dropLast_cons_of_ne_nil hne]
    intro c hc
    rcases List.mem_cons.mp hc with hc | hc
    · subst hc
      have hlen : CHUNKSIZE < p.length := by
        have := List.length_drop CHUNKSIZE p
        have hpos := List.length_pos.mpr hd
        omega
      simp [List.length_take]
      omega
    · exact chunksRem_dropLast_full _ c hc

lemma chunksRem_drop (t : Nat) (p : List Nat) :
    (chunksRem p).drop t = chunksRem (p.drop (CHUNKSIZE * t)) := by
  induction t generalizing p with
  | zero => simp
  | succ t ih =>
    by_cases h : p = []
    · subst h
      simp [chunksRem_nil]
    · rw [chunksRem_cons p h]
      rw [List.drop_succ_cons, ih (p.drop CHUNKSIZE), List.drop_drop]
      ring_nf

lemma drop_chunksRem_length (p : List Nat) :
    p.drop (CHUNKSIZE * (chunksRem p).length) = [] := by
  have h := chunksRem_drop (chunksRem p).length p
  rw [List.drop_length] at h
  exact ((chunksRem_eq_nil_iff _).mp h.symm)

lemma numChunks_eq (p : List Nat) :
    numChunks p = (chunksRem (p.drop CHUNKSIZE)).length + 1 := by
  simp [numChunks, chunks]

/-! Basic properties of `run`. -/

lemma run_nil (c : Conn) : run c [] = c := rfl

lemma run_cons (c : Conn) (a : Act) (as : List Act) :
    run c (a :: as) = run (step c a) as := rfl

lemma run_append (c : Conn) (as bs : List Act) :
    run c (as ++ bs) = run (run c as) bs := by
  simp [run, List.foldl_append]

/-! One-step characterizations of the write queue, under hypotheses that hold
along the failure-free flows. -/

lemma step_result_noop (c : Conn) (ok : Bool) (hP : c.pendingResult = false) :
    step c (.result ok) = c := by
  simp [step, onResult, hP]

lemma run_result_noop (c : Conn) (n : Nat) (hP : c.pendingResult = false) :
    run c (List.replicate n (.result true)) = c := by
  induction n with
  | zero => rfl
  | succ n ih =>
    rw [List.replicate_succ, run_cons, step_result_noop c true hP]
    exact ih

lemma step_result_issue (c : Conn) (i : Nat) (rem : List Nat) (cb : Bool) (rest : List TxItem)
    (hT : c.txCharacteristic = true) (hP : c.pendingResult = true)
    (hQ : c.txDataQueue = ⟨i, rem, cb⟩ :: rest) (hrem : rem ≠ []) :
    step c (.result true) =
      { c with txDataQueue := ⟨i, rem.drop CHUNKSIZE, cb⟩ :: rest,
               txInProgress := true, pendingResult := true,
               resolved := c.resolved + 1,
               sent := c.sent ++ [rem.take CHUNKSIZE] } := by
  simp [step, onResult, hP, hQ, hrem, writeChunk1, hT]

lemma step_result_retire_nil (c : Conn) (i : Nat)
    (hP : c.pendingResult = true) (hQ : c.txDataQueue = [⟨i, [], true⟩]) :
    step c (.result true) =
      { c with txDataQueue := [], txInProgress := false, pendingResult := false,
               resolved := c.resolved + 1, fired := c.fired ++ [i] } := by
  simp [step, onResult, hP, hQ]

lemma step_result_retire_cons (c : Conn) (i j : Nat) (p : List Nat) (cb : Bool)
    (rest : List TxItem)
    (hT : c.txCharacteristic = true) (hP : c.pendingResult = true)
    (hQ : c.txDataQueue = ⟨i, [], true⟩ :: ⟨j, p, cb⟩ :: rest) :
    step c (.result true) =
      { c with txDataQueue := ⟨j, p.drop CHUNKSIZE, cb⟩ :: rest,
               txInProgress := true, pendingResult := true,
               resolved := c.resolved + 1, fired := c.fired ++ [i],
               sent := c.sent ++ [p.take CHUNKSIZE] } := by
  simp [step, onResult, hP, hQ, writeChunk1, hT]

lemma step_result_fail (c : Conn)
    (hS : c.btServer = true) (hO : c.isOpen = true) (hP : c.pendingResult = true) :
    step c (.result false) =
      { c with txDataQueue := [], pendingResult := false, resolved := c.resolved + 1,
               gattConnected := false, btServer := false, txCharacteristic := false,
               rxCharacteristic := false, isOpen := false,
               emitted := c.emitted ++ [CEvent.closed] } := by
  simp [step, onResult, hP, close, hS, hO]

lemma step_enqueue_idle (c : Conn) (data : List Nat) (hasCb : Bool)
    (hT : c.txCharacteristic = true) (hI : c.txInProgress = false)
    (hQ : c.txDataQueue = []) :
    step c (.enqueue data hasCb) =
      { c with txDataQueue := [⟨c.nextId, data.drop CHUNKSIZE, hasCb⟩],
               nextId := c.nextId + 1, txInProgress := true, pendingResult := true,
               sent := c.sent ++ [data.take CHUNKSIZE] } := by
  simp [step, enqueueWrite, hT, hI, hQ, writeChunk1]

lemma step_enqueue_busy (c : Conn) (data : List Nat) (hasCb : Bool)
    (hT : c.txCharacteristic = true) (hI : c.txInProgress = true) :
    step c (.enqueue data hasCb) =
      { c with txDataQueue := c.txDataQueue ++ [⟨c.nextId, data, hasCb⟩],
               nextId := c.nextId + 1 } := by
  simp [step, enqueueWrite, hT, hI]

lemma run_drain_take (n : Nat) (c : Conn) (i : Nat) (rem : List Nat) (cb : Bool)
    (rest : List TxItem)
    (hT : c.txCharacteristic = true) (hP : c.pendingResult = true)
    (hQ : c.txDataQueue = ⟨i, rem, cb⟩ :: rest)
    (hn : n ≤ (chunksRem rem).length) :
    run c (List.replicate n (.result true)) =
      { c with txDataQueue := ⟨i, rem.drop (CHUNKSIZE * n), cb⟩ :: rest,
               txInProgress := if n = 0 then c.txInProgress else true,
               pendingResult := true,
               sent := c.sent ++ (chunksRem rem).take n,
               resolved := c.resolved + n } := by
  induction n generalizing c rem with
  | zero =>
    rw [List.replicate_zero, run_nil, Nat.mul_zero, List.drop_zero, List.take_zero,
        List.append_nil, Nat.add_zero, ← hQ, ← hP]
    rfl
  | succ n ih =>
    have hrem : rem ≠ [] := by
      intro h
      subst h
      simp [chunksRem_nil] at hn
    rw [List.replicate_succ, run_cons, step_result_issue c i rem cb rest hT hP hQ hrem]
    have hn2 : n ≤ (chunksRem (rem.drop CHUNKSIZE)).length := by
      rw [chunksRem_cons rem hrem] at hn
      simpa using Nat.le_of_succ_le_succ hn
    rw [ih { c with txDataQueue := ⟨i, rem.drop CHUNKSIZE, cb⟩ :: rest,
                    txInProgress := true, pendingResult := true,
                    resolved := c.resolved + 1,
                    sent := c.sent ++ [rem.take CHUNKSIZE] }
          (rem.drop CHUNKSIZE) hT rfl rfl hn2]
    have hdrop : (rem.drop CHUNKSIZE).drop (CHUNKSIZE * n) = rem.drop (CHUNKSIZE * (n + 1)) := by
      rw [List.drop_drop, Nat.mul_succ]
      ring_nf
    have htake : rem.take CHUNKSIZE :: (chunksRem (rem.drop CHUNKSIZE)).take n =
        (chunksRem rem).take (n + 1) := by
      rw [chunksRem_cons rem hrem, List.take_succ_cons]
    simp [hdrop, ← htake, Nat.add_assoc, Nat.add_comm 1 n]

lemma run_drain_single (c : Conn) (i : Nat) (rem : List Nat)
    (hT : c.txCharacteristic = true) (hP : c.pendingResult = true)
    (hQ : c.txDataQueue = [⟨i, rem, true⟩]) :
    run c (List.replicate ((chunksRem rem).length + 1) (.result true)) =
      { c with txDataQueue := [], txInProgress := false, pendingResult := false,
               resolved := c.resolved + ((chunksRem rem).length + 1),
               sent := c.sent ++ chunksRem rem, fired := c.fired ++ [i] } := by
  rw [List.replicate_add, run_append,
      run_drain_take ((chunksRem rem).length) c i rem true [] hT hP hQ (le_refl _),
      List.replicate_one, run_cons, run_nil]
  rw [step_result_retire_nil _ i (by rfl) (by simp [drop_chunksRem_length])]
  simp [Nat.add_assoc]

lemma run_drain_headcons (c : Conn) (i : Nat) (rem : List Nat) (it2 : TxItem)
    (rest2 : List TxItem)
    (hT : c.txCharacteristic = true) (hP : c.pendingResult = true)
    (hQ : c.txDataQueue = ⟨i, rem, true⟩ :: it2 :: rest2) :
    run c (List.replicate ((chunksRem rem).length + 1) (.result true)) =
      { c with txDataQueue := ⟨it2.id, it2.data.drop CHUNKSIZE, it2.hasCb⟩ :: rest2,
               txInProgress := true, pendingResult := true,
               resolved := c.resolved + ((chunksRem rem).length + 1),
               sent := c.sent ++ chunksRem rem ++ [it2.data.take CHUNKSIZE],
               fired := c.fired ++ [i] } := by
  rw [List.replicate_add, run_append,
      run_drain_take ((chunksRem rem).length) c i rem true (it2 :: rest2) hT hP hQ (le_refl _),
      List.replicate_one, run_cons, run_nil]
  rw [step_result_retire_cons _ i it2.id it2.data it2.hasCb rest2 (by exact hT) (by rfl)
      (by simp [drop_chunksRem_length])]
  simp [Nat.add_assoc, List.append_assoc]

lemma chunkSeq_nil (rem : List Nat) : chunkSeq rem [] = chunksRem rem := by
  simp [chunkSeq]

lemma chunkSeq_cons (rem : List Nat) (it2 : TxItem) (rest2 : List TxItem) :
    chunkSeq rem (it2 :: rest2) =
      (chunksRem rem ++ [it2.data.take CHUNKSIZE]) ++
        chunkSeq (it2.data.drop CHUNKSIZE) rest2 := by
  simp [chunkSeq, chunks, List.append_assoc]

lemma firedSeq_of_lt (i : Nat) (rem : List Nat) (tail : List TxItem) (n : Nat)
    (h : n < (chunksRem rem).length + 1) : firedSeq i rem tail n = [] := by
  rw [firedSeq.eq_def]
  simp [Nat.not_le.mpr h]

lemma firedSeq_nil_of_le (i : Nat) (rem : List Nat) (n : Nat)
    (h : (chunksRem rem).length + 1 ≤ n) : firedSeq i rem [] n = [i] := by
  rw [firedSeq.eq_def]
  simp [h]

lemma firedSeq_cons_of_le (i : Nat) (rem : List Nat) (it2 : TxItem) (rest2 : List TxItem)
    (n : Nat) (h : (chunksRem rem).length + 1 ≤ n) :
    firedSeq i rem (it2 :: rest2) n =
      i :: firedSeq it2.id (it2.data.drop CHUNKSIZE) rest2
          (n - ((chunksRem rem).length + 1)) := by
  rw [firedSeq.eq_def]
  simp [h]

lemma run_queue_drain (tail : List TxItem) :
    ∀ (c : Conn) (i : Nat) (rem : List Nat) (n : Nat),
    c.txCharacteristic = true → c.pendingResult = true →
    c.txDataQueue = ⟨i, rem, true⟩ :: tail →
    (∀ it ∈ tail, it.hasCb = true) →
    (run c (List.replicate n (.result true))).sent = c.sent ++ (chunkSeq rem tail).take n ∧
    (run c (List.replicate n (.result true))).fired = c.fired ++ firedSeq i rem tail n ∧
    (run c (List.replicate n (.result true))).btServer = c.btServer ∧
    (run c (List.replicate n (.result true))).txCharacteristic = true ∧
    (run c (List.replicate n (.result true))).isOpen = c.isOpen ∧
    (n ≤ (chunkSeq rem tail).length →
      (run c (List.replicate n (.result true))).pendingResult = true) := by
  induction tail with
  | nil =>
    intro c i rem n hT hP hQ hcb
    by_cases hn : n ≤ (chunksRem rem).length
    · rw [run_drain_take n c i rem true [] hT hP hQ hn]
      refine ⟨?_, ?_, rfl, hT, rfl, fun _ => rfl⟩
      · rw [chunkSeq_nil]
      · rw [firedSeq_of_lt i rem [] n (by omega)]
        simp
    · have hrep : List.replicate n (Act.result true) =
          List.replicate ((chunksRem rem).length + 1) (Act.result true) ++
            List.replicate (n - ((chunksRem rem).length + 1)) (Act.result true) := by
        rw [← List.replicate_add]
        congr 1
        omega
      rw [hrep, run_append, run_drain_single c i rem hT hP hQ,
          run_result_noop _ _ (by rfl)]
      refine ⟨?_, ?_, rfl, hT, rfl, ?_⟩
      · rw [chunkSeq_nil, List.take_of_length_le (by omega)]
      · rw [firedSeq_nil_of_le i rem n (by omega)]
      · intro h
        rw [chunkSeq_nil] at h
        omega
  | cons it2 rest2 ih =>
    intro c i rem n hT hP hQ hcb
    by_cases hn : n ≤ (chunksRem rem).length
    · rw [run_drain_take n c i rem true (it2 :: rest2) hT hP hQ hn]
      refine ⟨?_, ?_, rfl, hT, rfl, fun _ => rfl⟩
      · rw [chunkSeq_cons, List.take_append_of_le_length (by simp; omega),
            List.take_append_of_le_length (by omega)]
      · rw [firedSeq_of_lt i rem _ n (by omega)]
        simp
    · have hit2 : it2.hasCb = true := hcb it2 (List.mem_cons_self it2 rest2)
      have hcb2 : ∀ it ∈ rest2, it.hasCb = true :=
        fun it h => hcb it (List.mem_cons_of_mem it2 h)
      have hrep : List.replicate n (Act.result true) =
          List.replicate ((chunksRem rem).length + 1) (Act.result true) ++
            List.replicate (n - ((chunksRem rem).length + 1)) (Act.result true) := by
        rw [← List.replicate_add]
        congr 1
        omega
      rw [hrep, run_append, run_drain_headcons c i rem it2 rest2 hT hP hQ]
      obtain ⟨s1, s2, s3, s4, s5, s6⟩ :=
        ih { c with txDataQueue := ⟨it2.id, it2.data.drop CHUNKSIZE, it2.hasCb⟩ :: rest2,
                    txInProgress := true, pendingResult := true,
                    resolved := c.resolved + ((chunksRem rem).length + 1),
                    sent := c.sent ++ chunksRem rem ++ [it2.data.take CHUNKSIZE],
                    fired := c.fired ++ [i] }
          it2.id (it2.data.drop CHUNKSIZE) (n - ((chunksRem rem).length + 1))
          hT rfl (by simp [hit2]) hcb2
      refine ⟨?_, ?_, s3, s4, s5, ?_⟩
      · rw [s1, chunkSeq_cons]
        rw [show (chunksRem rem ++ [it2.data.take CHUNKSIZE]) ++
              chunkSeq (it2.data.drop CHUNKSIZE) rest2 =
            (chunksRem rem ++ [it2.data.take CHUNKSIZE]) ++
              chunkSeq (it2.data.drop CHUNKSIZE) rest2 from rfl]
        rw [show n = (chunksRem rem ++ [it2.data.take CHUNKSIZE]).length +
              (n - ((chunksRem rem).length + 1)) by simp; omega]
        rw [List.take_append]
        simp [List.append_assoc]
      · rw [s2, firedSeq_cons_of_le i rem it2 rest2 n (by omega)]
        simp [List.append_assoc]
      · intro h
        apply s6
        rw [chunkSeq_cons] at h
        simp at h
        omega

/-! Once `txCharacteristic` is cleared and no write resolution is pending, the
fired/sent traces can never change again. -/

lemma step_frozen (c : Conn) (a : Act)
    (hT : c.txCharacteristic = false) (hP : c.pendingResult = false) :
    (step c a).fired = c.fired ∧ (step c a).sent = c.sent ∧
    (step c a).txCharacteristic = false ∧ (step c a).pendingResult = false := by
  cases a with
  | enqueue d b => simp [step, enqueueWrite, hT, hP]
  | result ok => simp [step, onResult, hP, hT]
  | notify d =>
    simp only [step, notifyRx]
    split
    · exact ⟨rfl, rfl, hT, hP⟩
    · exact ⟨rfl, rfl, hT, hP⟩
  | closeCall =>
    simp only [step, close]
    split
    · exact ⟨rfl, rfl, hT, hP⟩
    · split
      · exact ⟨rfl, rfl, rfl, hP⟩
      · exact ⟨rfl, rfl, rfl, hP⟩
  | disconnected =>
    simp only [step, close]
    split
    · exact ⟨rfl, rfl, hT, hP⟩
    · split
      · exact ⟨rfl, rfl, rfl, hP⟩
      · exact ⟨rfl, rfl, rfl, hP⟩

lemma run_frozen (as : List Act) :
    ∀ c : Conn, c.txCharacteristic = false → c.pendingResult = false →
    (run c as).fired = c.fired ∧ (run c as).sent = c.sent ∧
    (run c as).txCharacteristic = false ∧ (run c as).pendingResult = false := by
  induction as with
  | nil => intro c hT hP; exact ⟨rfl, rfl, hT, hP⟩
  | cons a as ih =>
    intro c hT hP
    obtain ⟨f1, f2, f3, f4⟩ := step_frozen c a hT hP
    obtain ⟨g1, g2, g3, g4⟩ := ih (step c a) f3 f4
    rw [run_cons]
    exact ⟨g1.trans f1, g2.trans f2, g3, g4⟩

/-- Serialization invariant: the number of chunks handed to `writeValue` never
exceeds the number of resolved chunk writes by more than the single one that
may be in flight, and a write can only be pending while `txInProgress` holds. -/
def Inflight (c : Conn) : Prop :=
  c.sent.length = c.resolved + (if c.pendingResult = true then 1 else 0) ∧
  (c.txInProgress = false → c.pendingResult = false)

lemma close_trace_fields (c : Conn) :
    (close c).sent = c.sent ∧ (close c).resolved = c.resolved ∧
    (close c).pendingResult = c.pendingResult ∧ (close c).txInProgress = c.txInProgress ∧
    (close c).fired = c.fired := by
  unfold close
  split
  · exact ⟨rfl, rfl, rfl, rfl, rfl⟩
  · split
    · exact ⟨rfl, rfl, rfl, rfl, rfl⟩
    · exact ⟨rfl, rfl, rfl, rfl, rfl⟩

lemma inflight_of_fields (c c' : Conn) (hs : c'.sent = c.sent)
    (hr : c'.resolved = c.resolved) (hp : c'.pendingResult = c.pendingResult)
    (hi : c'.txInProgress = c.txInProgress) (h : Inflight c) : Inflight c' := by
  unfold Inflight at *
  rw [hs, hr, hp, hi]
  exact h

lemma writeChunk1_inflight (c : Conn) (hP : c.pendingResult = false)
    (h1 : c.sent.length = c.resolved) : Inflight (writeChunk1 c) := by
  unfold writeChunk1
  rcases hq : c.txDataQueue with _ | ⟨it, rest⟩
  · exact ⟨by simp [hP, h1], fun _ => hP⟩
  · simp only
    split
    · exact ⟨by simp [h1], by simp⟩
    · refine inflight_of_fields _ _ (close_trace_fields _).1 (close_trace_fields _).2.1
        (close_trace_fields _).2.2.1 (close_trace_fields _).2.2.2.1 ?_
      exact ⟨by simp [hP, h1], by simp⟩

lemma inflight_close (c : Conn) (h : Inflight c) : Inflight (close c) :=
  inflight_of_fields c (close c) (close_trace_fields c).1 (close_trace_fields c).2.1
    (close_trace_fields c).2.2.1 (close_trace_fields c).2.2.2.1 h

lemma onResult_true_inflight (c : Conn) (hPt : c.pendingResult = true)
    (h1a : c.sent.length = c.resolved + 1) : Inflight (onResult c true) := by
  obtain ⟨g, bs, rl, tc, rc, io, q, ti, pr, rv, ni, sn, fr, em, cb⟩ := c
  simp only at hPt h1a
  subst hPt
  rcases q with _ | ⟨⟨iid, idata, icb⟩, rest⟩
  · apply inflight_close
    exact ⟨by simpa using h1a, by simp⟩
  · rcases idata with _ | ⟨x, xs⟩
    · cases icb with
      | true =>
        rcases rest with _ | ⟨it2, rest2⟩
        · exact ⟨by simpa [onResult] using h1a, by simp [onResult]⟩
        · cases tc with
          | true =>
            exact ⟨by simpa [onResult, writeChunk1] using h1a, by simp [onResult, writeChunk1]⟩
          | false =>
            simp only [onResult, writeChunk1]
            apply inflight_close
            exact ⟨by simpa using h1a, by simp⟩
      | false =>
        simp only [onResult]
        apply inflight_close
        exact ⟨by simpa using h1a, by simp⟩
    · cases tc with
      | true =>
        exact ⟨by simpa [onResult, writeChunk1] using h1a, by simp [onResult, writeChunk1]⟩
      | false =>
        simp only [onResult, writeChunk1]
        apply inflight_close
        exact ⟨by simpa using h1a, by simp⟩

lemma onResult_false_inflight (c : Conn) (hPt : c.pendingResult = true)
    (h1a : c.sent.length = c.resolved + 1) : Inflight (onResult c false) := by
  obtain ⟨g, bs, rl, tc, rc, io, q, ti, pr, rv, ni, sn, fr, em, cb⟩ := c
  simp only at hPt h1a
  subst hPt
  simp only [onResult]
  apply inflight_close
  exact ⟨by simpa using h1a, by simp⟩

lemma step_inflight (c : Conn) (a : Act) (h : Inflight c) : Inflight (step c a) := by
  obtain ⟨h1, h2⟩ := h
  cases a with
  | enqueue d b =>
    simp only [step, enqueueWrite]
    split
    · exact ⟨h1, h2⟩
    · split
      · rename_i hT hI
        have hP : c.pendingResult = false := h2 (by simpa using hI)
        have h1a : c.sent.length = c.resolved := by simpa [hP] using h1
        exact writeChunk1_inflight
          { c with txDataQueue := c.txDataQueue ++ [⟨c.nextId, d, b⟩],
                   nextId := c.nextId + 1 } hP h1a
      · exact ⟨h1, h2⟩
  | result ok =>
    by_cases hP : c.pendingResult = true
    · have h1a : c.sent.length = c.resolved + 1 := by simpa [hP] using h1
      cases ok with
      | true => exact onResult_true_inflight c hP h1a
      | false => exact onResult_false_inflight c hP h1a
    · have hP2 : c.pendingResult = false := by
        revert hP
        cases c.pendingResult <;> simp
      rw [show step c (.result ok) = c from by simp [step, onResult, hP2]]
      exact ⟨h1, h2⟩
  | notify d =>
    simp only [step, notifyRx]
    split
    · exact ⟨h1, h2⟩
    · exact ⟨h1, h2⟩
  | closeCall => exact inflight_close c ⟨h1, h2⟩
  | disconnected =>
    exact inflight_close { c with gattConnected := false } ⟨h1, h2⟩

lemma run_inflight (as : List Act) :
    ∀ c : Conn, Inflight c → Inflight (run c as) := by
  induction as with
  | nil => intro c h; exact h
  | cons a as ih =>
    intro c h
    rw [run_cons]
    exact ih _ (step_inflight c a h)

/-! Behaviour of a closed connection. -/

lemma close_of_btServer_false (c : Conn) (h : c.btServer = false) : close c = c := by
  simp [close, h]

lemma step_enqueue_noop (c : Conn) (d : List Nat) (b : Bool)
    (ht : c.txCharacteristic = false) : step c (.enqueue d b) = c := by
  simp [step, enqueueWrite, ht]

lemma step_closed (c : Conn) (a : Act) (h : ClosedConn c) :
    (step c a).emitted = c.emitted ∧ ClosedConn (step c a) := by
  obtain ⟨hg, hb, ht, ho⟩ := h
  cases a with
  | enqueue d b =>
    rw [step_enqueue_noop c d b ht]
    exact ⟨rfl, hg, hb, ht, ho⟩
  | result ok =>
    by_cases hP : c.pendingResult = true
    · obtain ⟨g, bs, rl, tc, rc, io, q, ti, pr, rv, ni, sn, fr, em, cb⟩ := c
      simp only at hg hb ht ho hP
      subst hg hb ht ho hP
      cases ok with
      | true =>
        rcases q with _ | ⟨⟨iid, idata, icb⟩, rest⟩
        · simp [step, onResult, close, ClosedConn]
        · rcases idata with _ | ⟨x, xs⟩
          · cases icb <;> rcases rest with _ | ⟨it2, rest2⟩ <;>
              simp [step, onResult, writeChunk1, close, ClosedConn]
          · simp [step, onResult, writeChunk1, close, ClosedConn]
      | false => simp [step, onResult, close, ClosedConn]
    · have hP2 : c.pendingResult = false := by
        revert hP
        cases c.pendingResult <;> simp
      rw [show step c (.result ok) = c from by simp [step, onResult, hP2]]
      exact ⟨rfl, hg, hb, ht, ho⟩
  | notify d =>
    rw [show step c (.notify d) = c from by simp [step, notifyRx, hg]]
    exact ⟨rfl, hg, hb, ht, ho⟩
  | closeCall =>
    rw [show step c .closeCall = c from close_of_btServer_false c hb]
    exact ⟨rfl, hg, hb, ht, ho⟩
  | disconnected =>
    have : step c .disconnected = c := by
      obtain ⟨g, bs, rl, tc, rc, io, q, ti, pr, rv, ni, sn, fr, em, cb⟩ := c
      simp only at hg hb
      subst hg hb
      simp [step, close]
    rw [this]
    exact ⟨rfl, hg, hb, ht, ho⟩

lemma run_closed (as : List Act) :
    ∀ c : Conn, ClosedConn c →
    (run c as).emitted = c.emitted ∧ ClosedConn (run c as) := by
  induction as with
  | nil => intro c h; exact ⟨rfl, h⟩
  | cons a as ih =>
    intro c h
    obtain ⟨f1, f2⟩ := step_closed c a h
    obtain ⟨g1, g2⟩ := ih (step c a) f2
    rw [run_cons]
    exact ⟨g1.trans f1, g2⟩

/-! The only events a running connection can append are `closed` and `dataEv`;
`opened` is emitted solely by a successful negotiation. -/

lemma close_emitted_cases (c : Conn) :
    (close c).emitted = c.emitted ∨ (close c).emitted = c.emitted ++ [CEvent.closed] := by
  unfold close
  split
  · exact Or.inl rfl
  · split
    · exact Or.inr rfl
    · exact Or.inl rfl

lemma writeChunk1_emitted_cases (c : Conn) :
    (writeChunk1 c).emitted = c.emitted ∨
    (writeChunk1 c).emitted = c.emitted ++ [CEvent.closed] := by
  unfold writeChunk1
  split
  · exact Or.inl rfl
  · dsimp only
    split
    · exact Or.inl rfl
    · exact close_emitted_cases _

lemma onResult_emitted_cases (c : Conn) (ok : Bool) :
    (onResult c ok).emitted = c.emitted ∨
    (onResult c ok).emitted = c.emitted ++ [CEvent.closed] := by
  unfold onResult
  split
  · exact Or.inl rfl
  · dsimp only
    split
    · split
      · exact close_emitted_cases _
      · split
        · split
          · split
            · exact Or.inl rfl
            · exact writeChunk1_emitted_cases _
          · exact close_emitted_cases _
        · split
          · exact Or.inl rfl
          · exact writeChunk1_emitted_cases _
    · exact close_emitted_cases _

lemma step_emitted_cases (c : Conn) (a : Act) :
    (step c a).emitted = c.emitted ∨
    (step c a).emitted = c.emitted ++ [CEvent.closed] ∨
    ∃ d, (step c a).emitted = c.emitted ++ [CEvent.dataEv d] := by
  cases a with
  | enqueue d b =>
    simp only [step, enqueueWrite]
    split
    · exact Or.inl rfl
    · split
      · rcases writeChunk1_emitted_cases _ with h | h
        · exact Or.inl h
        · exact Or.inr (Or.inl h)
      · exact Or.inl rfl
  | result ok =>
    rcases onResult_emitted_cases c ok with h | h
    · exact Or.inl h
    · exact Or.inr (Or.inl h)
  | notify d =>
    simp only [step, notifyRx]
    split
    · exact Or.inr (Or.inr ⟨d, rfl⟩)
    · exact Or.inl rfl
  | closeCall =>
    rcases close_emitted_cases c with h | h
    · exact Or.inl h
    · exact Or.inr (Or.inl h)
  | disconnected =>
    rcases close_emitted_cases { c with gattConnected := false } with h | h
    · exact Or.inl h
    · exact Or.inr (Or.inl h)

lemma step_opened_mono (c : Conn) (a : Act)
    (h : CEvent.opened ∈ (step c a).emitted) : CEvent.opened ∈ c.emitted := by
  rcases step_emitted_cases c a with hc | hc | ⟨d, hc⟩ <;> rw [hc] at h
  · exact h
  · rcases List.mem_append.mp h with h | h
    · exact h
    · simp at h
  · rcases List.mem_append.mp h with h | h
    · exact h
    · simp at h

lemma run_opened_mono (as : List Act) :
    ∀ c : Conn, CEvent.opened ∈ (run c as).emitted → CEvent.opened ∈ c.emitted := by
  induction as with
  | nil => intro c h; exact h
  | cons a as ih =>
    intro c h
    rw [run_cons] at h
    exact step_opened_mono c a (ih (step c a) h)

/-- The `close` event is emitted at most once: once it has been emitted,
`btServer` and `isOpen` are both cleared and nothing ever sets them again. -/
def CloseOnce (c : Conn) : Prop :=
  c.emitted.count CEvent.closed ≤ 1 ∧
  (c.btServer = true → c.isOpen = true → c.emitted.count CEvent.closed = 0)

lemma closeOnce_of_fields (c c' : Conn)
    (he : c'.emitted.count CEvent.closed = c.emitted.count CEvent.closed)
    (hb : c'.btServer = c.btServer) (ho : c'.isOpen = c.isOpen)
    (h : CloseOnce c) : CloseOnce c' := by
  unfold CloseOnce at *
  rw [he, hb, ho]
  exact h

lemma close_closeOnce (c : Conn) (h : CloseOnce c) : CloseOnce (close c) := by
  obtain ⟨h1, h2⟩ := h
  unfold close
  split
  · exact ⟨h1, h2⟩
  · rename_i hb
    have hb2 : c.btServer = true := by
      revert hb
      cases c.btServer <;> simp
    split
    · rename_i ho
      have h0 : c.emitted.count CEvent.closed = 0 := h2 hb2 ho
      constructor
      · simp [List.count_append, h0]
      · intro hb3
        simp at hb3
    · constructor
      · simpa using h1
      · intro hb3
        simp at hb3

lemma writeChunk1_closeOnce (c : Conn) (h : CloseOnce c) : CloseOnce (writeChunk1 c) := by
  unfold writeChunk1
  split
  · exact h
  · dsimp only
    split
    · exact closeOnce_of_fields c _ rfl rfl rfl h
    · exact close_closeOnce _ (closeOnce_of_fields c _ rfl rfl rfl h)

lemma onResult_closeOnce (c : Conn) (ok : Bool) (h : CloseOnce c) :
    CloseOnce (onResult c ok) := by
  unfold onResult
  split
  · exact h
  · dsimp only
    split
    · split
      · exact close_closeOnce _ (closeOnce_of_fields c _ rfl rfl rfl h)
      · split
        · split
          · split
            · exact closeOnce_of_fields c _ rfl rfl rfl h
            · exact writeChunk1_closeOnce _ (closeOnce_of_fields c _ rfl rfl rfl h)
          · exact close_closeOnce _ (closeOnce_of_fields c _ rfl rfl rfl h)
        · split
          · exact closeOnce_of_fields c _ rfl rfl rfl h
          · exact writeChunk1_closeOnce _ (closeOnce_of_fields c _ rfl rfl rfl h)
    · exact close_closeOnce _ (closeOnce_of_fields c _ rfl rfl rfl h)

lemma step_closeOnce (c : Conn) (a : Act) (h : CloseOnce c) : CloseOnce (step c a) := by
  cases a with
  | enqueue d b =>
    simp only [step, enqueueWrite]
    split
    · exact h
    · split
      · exact writeChunk1_closeOnce _ (closeOnce_of_fields c _ rfl rfl rfl h)
      · exact closeOnce_of_fields c _ rfl rfl rfl h
  | result ok => exact onResult_closeOnce c ok h
  | notify d =>
    simp only [step, notifyRx]
    split
    · refine closeOnce_of_fields c _ ?_ rfl rfl h
      simp [List.count_append]
    · exact h
  | closeCall => exact close_closeOnce c h
  | disconnected =>
    exact close_closeOnce _ (closeOnce_of_fields c _ rfl rfl rfl h)

lemma run_closeOnce (as : List Act) :
    ∀ c : Conn, CloseOnce c → CloseOnce (run c as) := by
  induction as with
  | nil => intro c h; exact h
  | cons a as ih =>
    intro c h
    rw [run_cons]
    exact ih _ (step_closeOnce c a h)

/-! Enqueueing a batch of requests. -/

lemma run_enqueue_busy_batch (ps : List (List Nat)) :
    ∀ c : Conn, c.txCharacteristic = true → c.txInProgress = true →
    run c (ps.map fun p => Act.enqueue p true) =
      { c with txDataQueue := c.txDataQueue ++ mkItems c.nextId ps,
               nextId := c.nextId + ps.length } := by
  induction ps with
  | nil =>
    intro c hT hI
    rw [List.map_nil, run_nil, mkItems]
    simp
  | cons p ps ih =>
    intro c hT hI
    rw [List.map_cons, run_cons, step_enqueue_busy c p true hT hI]
    rw [ih { c with txDataQueue := c.txDataQueue ++ [⟨c.nextId, p, true⟩],
                    nextId := c.nextId + 1 } hT hI]
    rw [mkItems]
    simp [List.append_assoc, Nat.add_assoc, Nat.add_comm 1 ps.length]

lemma run_enqueue_batch (p0 : List Nat) (ps : List (List Nat)) (c : Conn)
    (hT : c.txCharacteristic = true) (hI : c.txInProgress = false)
    (hQ : c.txDataQueue = []) :
    run c ((p0 :: ps).map fun p => Act.enqueue p true) =
      { c with txDataQueue := ⟨c.nextId, p0.drop CHUNKSIZE, true⟩ ::
                   mkItems (c.nextId + 1) ps,
               nextId := c.nextId + 1 + ps.length, txInProgress := true,
               pendingResult := true,
               sent := c.sent ++ [p0.take CHUNKSIZE] } := by
  rw [List.map_cons, run_cons, step_enqueue_idle c p0 true hT hI hQ]
  rw [run_enqueue_busy_batch ps
      { c with txDataQueue := [⟨c.nextId, p0.drop CHUNKSIZE, true⟩],
               nextId := c.nextId + 1, txInProgress := true, pendingResult := true,
               sent := c.sent ++ [p0.take CHUNKSIZE] } hT rfl]
  simp

/-! Relating `firedSeq` over a freshly enqueued batch to `completedCount`. -/

lemma mkItems_hasCb (ps : List (List Nat)) :
    ∀ base, ∀ it ∈ mkItems base ps, it.hasCb = true := by
  induction ps with
  | nil => intro base it h; simp [mkItems] at h
  | cons p ps ih =>
    intro base it h
    rw [mkItems] at h
    rcases List.mem_cons.mp h with h | h
    · subst h; rfl
    · exact ih (base + 1) it h

lemma mkItems_map_chunks (ps : List (List Nat)) :
    ∀ base, ((mkItems base ps).map fun it => chunks it.data) = ps.map chunks := by
  induction ps with
  | nil => intro base; rw [mkItems]; rfl
  | cons p ps ih =>
    intro base
    rw [mkItems, List.map_cons, List.map_cons, ih (base + 1)]

lemma firedSeq_mkItems (ps : List (List Nat)) :
    ∀ (base : Nat) (p : List Nat) (n : Nat),
    firedSeq base (p.drop CHUNKSIZE) (mkItems (base + 1) ps) n =
      List.range' base (completedCount (p :: ps) n) := by
  induction ps with
  | nil =>
    intro base p n
    by_cases h : numChunks p ≤ n
    · rw [mkItems, firedSeq_nil_of_le base _ n (by rw [numChunks_eq] at h; omega)]
      rw [completedCount]
      simp [h, completedCount]
    · rw [mkItems, firedSeq_of_lt base _ [] n (by rw [numChunks_eq] at h; omega)]
      rw [completedCount]
      simp [h]
  | cons p1 ps ih =>
    intro base p n
    by_cases h : numChunks p ≤ n
    · rw [mkItems, firedSeq_cons_of_le base _ _ _ n (by rw [numChunks_eq] at h; omega)]
      have harg : n - ((chunksRem (p.drop CHUNKSIZE)).length + 1) = n - numChunks p := by
        rw [numChunks_eq]
      rw [harg]
      rw [show (⟨base + 1, p1, true⟩ : TxItem).id = base + 1 from rfl]
      rw [show (⟨base + 1, p1, true⟩ : TxItem).data = p1 from rfl]
      rw [ih (base + 1) p1 (n - numChunks p)]
      conv_rhs => rw [completedCount]
      simp only [h, if_true]
      rw [List.range'_succ]
    · rw [mkItems, firedSeq_of_lt base _ _ n (by rw [numChunks_eq] at h; omega)]
      rw [completedCount]
      simp [h]

lemma completedCount_le_length (ps : List (List Nat)) :
    ∀ n, completedCount ps n ≤ ps.length := by
  induction ps with
  | nil => intro n; rw [completedCount]; simp
  | cons p ps ih =>
    intro n
    rw [completedCount]
    split
    · simpa using ih (n - numChunks p)
    · simp

lemma completedCount_lt_iff (ps : List (List Nat)) :
    ∀ (j n : Nat), j < completedCount ps n ↔
      j < ps.length ∧ ((ps.take (j + 1)).map numChunks).sum ≤ n := by
  induction ps with
  | nil =>
    intro j n
    rw [completedCount]
    simp
  | cons p ps ih =>
    intro j n
    rw [completedCount]
    by_cases h : numChunks p ≤ n
    · rw [if_pos h]
      cases j with
      | zero => simp [h]
      | succ j =>
        rw [Nat.succ_lt_succ_iff, ih j (n - numChunks p)]
        simp only [List.take_succ_cons, List.map_cons, List.sum_cons, List.length_cons]
        omega
    · rw [if_neg h]
      simp only [Nat.not_lt_zero, false_iff, not_and, not_le]
      intro hj
      simp only [List.take_succ_cons, List.map_cons, List.sum_cons]
      omega

lemma take_min_length (L : List (List Nat)) (n : Nat) :
    L.take (min n L.length) = L.take n := by
  rcases le_total n L.length with h | h
  · rw [Nat.min_eq_left h]
  · rw [Nat.min_eq_right h, List.take_length, List.take_of_length_le h]

lemma run_enqueue_batch_open (p0 : List Nat) (ps : List (List Nat)) :
    run openConn ((p0 :: ps).map fun p => Act.enqueue p true) =
      { openConn with txDataQueue := ⟨0, p0.drop CHUNKSIZE, true⟩ :: mkItems 1 ps,
                      nextId := 1 + ps.length, txInProgress := true,
                      pendingResult := true,
                      sent := [p0.take CHUNKSIZE] } := by
  rw [run_enqueue_batch p0 ps openConn rfl rfl rfl]
  rfl

/-- The scenario of a batch of writes with completion callbacks enqueued
back to back on a fresh open connection, followed by `n` successful chunk
resolutions. -/
def batchRun (ps : List (List Nat)) (n : Nat) : Conn :=
  run openConn ((ps.map fun p => Act.enqueue p true) ++ List.replicate n (Act.result true))

lemma batch_scenario (ps : List (List Nat)) (n : Nat) :
    (batchRun ps n).fired = List.range (completedCount ps n) ∧
    (batchRun ps n).sent =
      ((ps.map chunks).flatten).take (min (n + 1) ((ps.map chunks).flatten).length) ∧
    (batchRun ps n).btServer = true ∧ (batchRun ps n).isOpen = true ∧
    (n < ((ps.map chunks).flatten).length → (batchRun ps n).pendingResult = true) := by
  rcases ps with _ | ⟨p0, ps'⟩
  · unfold batchRun
    rw [List.map_nil, List.nil_append, run_result_noop openConn n rfl]
    refine ⟨by rw [completedCount]; rfl, by simp; rfl, rfl, rfl, by simp⟩
  · unfold batchRun
    rw [run_append, run_enqueue_batch_open p0 ps']
    obtain ⟨s1, s2, s3, s4, s5, s6⟩ :=
      run_queue_drain (mkItems 1 ps')
        { openConn with
            txDataQueue := ⟨0, p0.drop CHUNKSIZE, true⟩ :: mkItems 1 ps',
            nextId := 1 + ps'.length, txInProgress := true,
            pendingResult := true,
            sent := [p0.take CHUNKSIZE] }
        0 (p0.drop CHUNKSIZE) n rfl rfl rfl (mkItems_hasCb ps' 1)
    have hseq : chunkSeq (p0.drop CHUNKSIZE) (mkItems 1 ps') =
        chunksRem (p0.drop CHUNKSIZE) ++ (ps'.map chunks).flatten := by
      rw [chunkSeq, mkItems_map_chunks ps' 1]
    have hflat : ((p0 :: ps').map chunks).flatten =
        p0.take CHUNKSIZE :: (chunksRem (p0.drop CHUNKSIZE) ++ (ps'.map chunks).flatten) := by
      rw [List.map_cons, List.flatten_cons, chunks]
      rfl
    refine ⟨?_, ?_, ?_, ?_, ?_⟩
    · rw [s2]
      rw [show (1 : Nat) = 0 + 1 from rfl, firedSeq_mkItems ps' 0 p0 n, List.range_eq_range']
      rfl
    · rw [s1, hflat, hseq]
      rw [show ((p0.take CHUNKSIZE :: (chunksRem (p0.drop CHUNKSIZE) ++
            (ps'.map chunks).flatten)).length) =
          (chunksRem (p0.drop CHUNKSIZE) ++ (ps'.map chunks).flatten).length + 1 from by
        rw [List.length_cons]]
      rw [Nat.succ_min_succ, List.take_succ_cons, take_min_length]
      rfl
    · rw [s3]
      rfl
    · rw [s5]
      rfl
    · intro h
      apply s6
      rw [hseq]
      rw [hflat, List.length_cons] at h
      omega

/-- C1: for every write request enqueued (with a completion callback) on an
open Connection, the completion callback is invoked exactly once, and the
invocation happens exactly when every chunk of that request's payload (and of
the requests before it in the queue) has been reported successful by the
transport's characteristic-write primitive: after `n` successful resolutions
the fired list is exactly the requests whose cumulative chunk count is at most
`n`, each listed once (never merely on enqueue — `sent` shows at most `n + 1`
chunks were even issued); and if a chunk then fails, no further completion
callback ever fires, so a request with a failed chunk never completes. -/
theorem claim_C1 (ps : List (List Nat)) (n : Nat) :
    (batchRun ps n).fired = List.range (completedCount ps n) ∧
    (∀ j, j ∈ (batchRun ps n).fired ↔
        j < ps.length ∧ ((ps.take (j + 1)).map numChunks).sum ≤ n) ∧
    (batchRun ps n).sent =
      ((ps.map chunks).flatten).take (min (n + 1) ((ps.map chunks).flatten).length) ∧
    (n < ((ps.map chunks).flatten).length →
      ∀ future : List Act,
        (run (batchRun ps n) (Act.result false :: future)).fired =
          List.range (completedCount ps n)) := by
  obtain ⟨f, s, hb, ho, hp⟩ := batch_scenario ps n
  refine ⟨f, ?_, s, ?_⟩
  · intro j
    rw [f, List.mem_range]
    exact completedCount_lt_iff ps j n
  · intro h future
    rw [run_cons, step_result_fail (batchRun ps n) hb ho (hp h)]
    refine ((run_frozen future _ rfl rfl).1).trans ?_
    exact f

lemma run_enqueue_one_open (A : List Nat) :
    run openConn [Act.enqueue A true] =
      { openConn with txDataQueue := [⟨0, A.drop CHUNKSIZE, true⟩],
                      nextId := 1, txInProgress := true, pendingResult := true,
                      sent := [A.take CHUNKSIZE] } := by
  rw [run_cons, step_enqueue_idle openConn A true rfl rfl rfl, run_nil]
  rfl

/-- State after `connection.write(A, cb)` on a fresh open connection: one
request queued with its first chunk in flight. -/
def stA (A : List Nat) : Conn :=
  { openConn with txDataQueue := [⟨0, A.drop CHUNKSIZE, true⟩],
                  nextId := 1, txInProgress := true, pendingResult := true,
                  sent := [A.take CHUNKSIZE] }

/-- State after the write of `A` has fully drained and completed. -/
def stAdone (A : List Nat) : Conn :=
  { openConn with txDataQueue := [], nextId := 1,
                  resolved := numChunks A, sent := chunks A, fired := [0] }

/-- State after `j` successful chunk resolutions while `A` is still
draining. -/
def stAj (A : List Nat) (j : Nat) : Conn :=
  { stA A with txDataQueue := [⟨0, (A.drop CHUNKSIZE).drop (CHUNKSIZE * j), true⟩],
               txInProgress := true, pendingResult := true,
               sent := (stA A).sent ++ (chunksRem (A.drop CHUNKSIZE)).take j,
               resolved := (stA A).resolved + j }

/-- State after `connection.write(B, cb)` once `A` has completed. -/
def stB (A B : List Nat) : Conn :=
  { stAdone A with txDataQueue := [⟨1, B.drop CHUNKSIZE, true⟩],
                   nextId := 2, txInProgress := true, pendingResult := true,
                   sent := (stAdone A).sent ++ [B.take CHUNKSIZE] }

/-- State after `connection.write(B, cb)` while `A` is still draining. -/
def stBj (A B : List Nat) (j : Nat) : Conn :=
  { stAj A j with
      txDataQueue := (stAj A j).txDataQueue ++ [⟨(stAj A j).nextId, B, true⟩],
      nextId := (stAj A j).nextId + 1 }

lemma stA_eq (A : List Nat) : run openConn [Act.enqueue A true] = stA A :=
  run_enqueue_one_open A

lemma stAdone_eq (A : List Nat) :
    run (stA A) (List.replicate (numChunks A) (Act.result true)) = stAdone A := by
  rw [numChunks_eq A, run_drain_single (stA A) 0 (A.drop CHUNKSIZE) rfl rfl rfl]
  show _ = stAdone A
  unfold stAdone stA
  congr 1
  rw [numChunks_eq A]
  exact Nat.zero_add _

lemma stAj_eq (A : List Nat) (j : Nat) (hjL : j ≤ (chunksRem (A.drop CHUNKSIZE)).length) :
    run (stA A) (List.replicate j (Act.result true)) = stAj A j := by
  rw [run_drain_take j (stA A) 0 (A.drop CHUNKSIZE) true [] rfl rfl rfl hjL]
  unfold stAj
  congr 1
  split <;> rfl

lemma stB_eq (A B : List Nat) :
    run (stAdone A) [Act.enqueue B true] = stB A B := by
  rw [run_cons, step_enqueue_idle (stAdone A) B true rfl rfl rfl, run_nil]
  rfl

lemma stBj_eq (A B : List Nat) (j : Nat) :
    run (stAj A j) [Act.enqueue B true] = stBj A B j := by
  rw [run_cons, step_enqueue_busy (stAj A j) B true rfl rfl, run_nil]
  rfl

lemma inflight_openConn : Inflight openConn :=
  ⟨rfl, fun _ => rfl⟩

/-- C2: writes on one Connection are strictly serialized.  For sequential
`connection.write` calls with payloads `A` then `B` (the second issued after
`j` chunk resolutions of the first), and any number `k` of further successful
chunk resolutions, the transport sees a prefix of `chunks A ++ chunks B`: all
of A's chunks, in submission order, strictly before any of B's chunks, never
interleaved.  Moreover on every schedule whatsoever the number of chunks
handed to the transport exceeds the number of resolved chunk writes by at most
one: at most one chunk write is in flight at any time. -/
theorem claim_C2 (A B : List Nat) (j k : Nat) :
    (run openConn ([Act.enqueue A true] ++ List.replicate j (Act.result true) ++
        [Act.enqueue B true] ++ List.replicate k (Act.result true))).sent =
      (chunks A ++ chunks B).take
        (if numChunks A ≤ j then numChunks A + k + 1 else j + k + 1) ∧
    (∀ as : List Act, (run openConn as).sent.length ≤ (run openConn as).resolved + 1) := by
  constructor
  · have hnum : numChunks A = (chunksRem (A.drop CHUNKSIZE)).length + 1 := numChunks_eq A
    rw [run_append, run_append, run_append, stA_eq A]
    by_cases hj : numChunks A ≤ j
    · rw [if_pos hj]
      have hrep : List.replicate j (Act.result true) =
          List.replicate (numChunks A) (Act.result true) ++
            List.replicate (j - numChunks A) (Act.result true) := by
        rw [← List.replicate_add]
        congr 1
        omega
      rw [hrep, run_append, stAdone_eq A, run_result_noop (stAdone A) _ rfl, stB_eq A B]
      refine ((run_queue_drain [] (stB A B) 1 (B.drop CHUNKSIZE) k rfl rfl rfl
          (by intro it h; simp at h)).1).trans ?_
      show (chunks A ++ [B.take CHUNKSIZE]) ++ (chunkSeq (B.drop CHUNKSIZE) []).take k =
        (chunks A ++ chunks B).take (numChunks A + k + 1)
      rw [chunkSeq_nil]
      have hlen : numChunks A + k + 1 = (chunks A).length + (k + 1) := by
        rw [numChunks]
        omega
      rw [hlen, List.take_append]
      rw [show (chunks B).take (k + 1) =
          B.take CHUNKSIZE :: (chunksRem (B.drop CHUNKSIZE)).take k from by
        rw [chunks, List.take_succ_cons]]
      simp [List.append_assoc]
    · rw [if_neg hj]
      have hjL : j ≤ (chunksRem (A.drop CHUNKSIZE)).length := by omega
      rw [stAj_eq A j hjL, stBj_eq A B j]
      refine ((run_queue_drain [⟨1, B, true⟩] (stBj A B j) 0
          ((A.drop CHUNKSIZE).drop (CHUNKSIZE * j)) k rfl rfl rfl
          (by intro it h; simp at h; subst h; rfl)).1).trans ?_
      show ([A.take CHUNKSIZE] ++ (chunksRem (A.drop CHUNKSIZE)).take j) ++
          (chunkSeq ((A.drop CHUNKSIZE).drop (CHUNKSIZE * j)) [⟨1, B, true⟩]).take k =
        (chunks A ++ chunks B).take (j + k + 1)
      have hseq : chunkSeq ((A.drop CHUNKSIZE).drop (CHUNKSIZE * j)) [⟨1, B, true⟩] =
          (chunksRem (A.drop CHUNKSIZE)).drop j ++ chunks B := by
        rw [chunkSeq, chunksRem_drop j (A.drop CHUNKSIZE)]
        simp
      rw [hseq]
      rw [show chunks A ++ chunks B =
          A.take CHUNKSIZE :: (chunksRem (A.drop CHUNKSIZE) ++ chunks B) from by
        rw [chunks]; rfl]
      rw [show j + k + 1 = (j + k) + 1 from rfl, List.take_succ_cons]
      rw [List.take_add _ j k, List.take_append_of_le_length hjL,
          List.drop_append_of_le_length hjL]
      simp [List.append_assoc]
  · intro as
    have hinv := run_inflight as openConn inflight_openConn
    rw [hinv.1]
    split <;> omega

/-- C3: if a chunk's transport write fails while requests are queued (the
in-flight one included), the whole queue is discarded, no completion callback
of any queued request is ever invoked (the fired trace never changes again, on
any future schedule), no further chunk is ever sent (no retry), and the
Connection transitions to Closed, emitting `close`. -/
theorem claim_C3 (c : Conn) (q : List TxItem) (N : Nat)
    (hS : c.btServer = true) (hT : c.txCharacteristic = true)
    (hO : c.isOpen = true) (hP : c.pendingResult = true)
    (hQ : c.txDataQueue = q) (hN : q.length = N) :
    (step c (.result false)).txDataQueue = [] ∧
    (step c (.result false)).isOpen = false ∧
    (step c (.result false)).btServer = false ∧
    (step c (.result false)).emitted = c.emitted ++ [CEvent.closed] ∧
    (∀ future : List Act,
      (run (step c (.result false)) future).fired = c.fired ∧
      (run (step c (.result false)) future).sent = c.sent) := by
  rw [step_result_fail c hS hO hP]
  refine ⟨rfl, rfl, rfl, rfl, ?_⟩
  intro future
  have h := run_frozen future
    { c with txDataQueue := [], pendingResult := false, resolved := c.resolved + 1,
             gattConnected := false, btServer := false, txCharacteristic := false,
             rxCharacteristic := false, isOpen := false,
             emitted := c.emitted ++ [CEvent.closed] } rfl rfl
  exact ⟨h.1, h.2.1⟩

theorem claim_C3_witness :
    (step (run openConn [Act.enqueue [1, 2, 3] true, Act.enqueue [4] true])
        (Act.result false)).txDataQueue = [] ∧
    (run (step (run openConn [Act.enqueue [1, 2, 3] true, Act.enqueue [4] true])
        (Act.result false)) [Act.result true]).fired =
      (run openConn [Act.enqueue [1, 2, 3] true, Act.enqueue [4] true]).fired := by
  have h := claim_C3 (run openConn [Act.enqueue [1, 2, 3] true, Act.enqueue [4] true])
    (run openConn [Act.enqueue [1, 2, 3] true, Act.enqueue [4] true]).txDataQueue
    (run openConn [Act.enqueue [1, 2, 3] true, Act.enqueue [4] true]).txDataQueue.length
    rfl rfl rfl rfl rfl rfl
  exact ⟨h.1, (h.2.2.2.2 [Act.result true]).1⟩

/-- C6: Closed is terminal.  Once a Connection is Closed (GATT link down,
server and characteristic references cleared, not open), every `write` call on
it is a silent no-op that changes nothing, no event of any kind (`open`,
`data`, or `close`) is ever emitted again on any schedule, and every reachable
state is still Closed. -/
theorem claim_C6 (c : Conn) (h : ClosedConn c) :
    (∀ (d : List Nat) (b : Bool), step c (.enqueue d b) = c) ∧
    (∀ as : List Act, (run c as).emitted = c.emitted ∧ ClosedConn (run c as)) :=
  ⟨fun d b => step_enqueue_noop c d b h.2.2.1, fun as => run_closed as c h⟩

theorem claim_C6_witness :
    step (close openConn) (.enqueue [1] true) = close openConn ∧
    ClosedConn (run (close openConn) [Act.closeCall, Act.notify [5]]) :=
  ⟨(claim_C6 (close openConn) (by decide)).1 [1] true,
   ((claim_C6 (close openConn) (by decide)).2 [Act.closeCall, Act.notify [5]]).2⟩

/-- C10: the `close` event is emitted at most once over the lifetime of a
connection opened by a successful negotiation, and once the GATT session
reference is cleared, `close()` — whether called directly or from the
transport-disconnect listener — changes no state and emits no event. -/
theorem claim_C10 :
    (∀ as : List Act, ((run openConn as).emitted.count CEvent.closed) ≤ 1) ∧
    (∀ c : Conn, c.btServer = false → close c = c) ∧
    (∀ c : Conn, c.btServer = false → c.gattConnected = false →
      step c Act.closeCall = c ∧ step c Act.disconnected = c) := by
  refine ⟨?_, close_of_btServer_false, ?_⟩
  · intro as
    exact (run_closeOnce as openConn ⟨by decide, fun _ _ => by decide⟩).1
  · intro c hb hg
    refine ⟨close_of_btServer_false c hb, ?_⟩
    obtain ⟨g, bs, rl, tc, rc, io, q, ti, pr, rv, ni, sn, fr, em, cb⟩ := c
    simp only at hb hg
    subst hb hg
    simp [step, close]

theorem claim_C10_witness :
    close freshConn = freshConn ∧ step freshConn Act.closeCall = freshConn ∧
    step freshConn Act.disconnected = freshConn :=
  ⟨claim_C10.2.1 freshConn rfl, (claim_C10.2.2 freshConn rfl rfl).1,
   (claim_C10.2.2 freshConn rfl rfl).2⟩

/-- C4 as stated is false at the concrete failure point "no device selected":
the negotiation `.catch` calls `connection.close()`, but `btServer` is still
undefined there, so `close` is a no-op and `onConnected` is never invoked —
not invoked exactly once with none as the claim requires. -/
theorem claim_C4_counterexample :
    (negotiate (some NegFail.atRequestDevice)).cbCalls = [] ∧
    ¬ (negotiate (some NegFail.atRequestDevice)).cbCalls = [false] := by
  decide

/-- C4 amended: for negotiation failures after the GATT session is established
(service resolution, characteristic resolution, notification subscribe),
`onConnected` is invoked exactly once with none and no `open` event is ever
emitted; for the earlier failure points (no device selected, GATT connect
failure) `onConnected` is never invoked, and no `open` event is ever emitted
either. -/
theorem claim_C4_amended (f : NegFail) (as : List Act) :
    (negotiate (some f)).cbCalls = (if gattEstablished f then [false] else []) ∧
    CEvent.opened ∉ (run (negotiate (some f)) as).emitted := by
  constructor
  · cases f <;> decide
  · intro h
    have h2 := run_opened_mono as _ h
    cases f <;> exact absurd h2 (by decide)

/-- C5: chunking is lossless and size-bounded: the emitted chunks concatenate
back to the payload, every chunk is at most `CHUNKSIZE` bytes, and every chunk
except possibly the last is exactly `CHUNKSIZE` bytes. -/
theorem claim_C5 (p : List Nat) :
    (chunks p).flatten = p ∧
    (∀ c ∈ chunks p, c.length ≤ CHUNKSIZE) ∧
    (∀ c ∈ (chunks p).dropLast, c.length = CHUNKSIZE) :=
  ⟨chunks_flatten p, chunks_length_le p, chunks_dropLast_full p⟩

theorem claim_C5_witness :
    ((List.range 20).take CHUNKSIZE ∈ chunks (List.range 20)) ∧
    ((List.range 20).take CHUNKSIZE).length ≤ CHUNKSIZE ∧
    (chunks (List.range 20)).flatten = List.range 20 := by
  have hm : (List.range 20).take CHUNKSIZE ∈ chunks (List.range 20) := by
    rw [chunks]
    exact List.mem_cons_self _ _
  exact ⟨hm, (claim_C5 (List.range 20)).2.1 _ hm, (claim_C5 (List.range 20)).1⟩

/-- C9: the code faults on a fire-and-forget `connection.write(data)` with no
callback.  On successful completion of the final chunk, line 122
`txItem.callback()` calls `undefined`, the TypeError is caught by the
transport-error handler, and the connection is force-closed: the claim's
"does not fault" behaviour does not hold. -/
theorem claim_C9_eval :
    (run openConn [Act.enqueue [97] false, Act.result true]).isOpen = false ∧
    (run openConn [Act.enqueue [97] false, Act.result true]).emitted =
      [CEvent.opened, CEvent.closed] ∧
    (run openConn [Act.enqueue [97] false, Act.result true]).sent = [[97]] ∧
    (run openConn [Act.enqueue [97] false, Act.result true]).fired = [] := by
  decide

/-- C8: on negotiation failure the facade's connect-callback invokes the
caller's callback with null when one was supplied (for failures after the
GATT session existed, where `close` invokes it) but then dereferences the
`undefined` connection; with no callback supplied it calls `undefined` as a
function — either way a TypeError propagates, the failure is not absorbed. -/
theorem claim_C8_eval :
    facadeOnConnected false none = ([], true) ∧
    facadeOnConnected true none = ([none], true) ∧
    (negotiate (some NegFail.atGetService)).cbCalls = [false] := by
  refine ⟨rfl, rfl, by decide⟩

lemma quiescePoll_spec (ws : List (List (List Nat))) :
    ∀ (m : Nat) (buf : List Nat) (n : Nat) (v : List Nat),
    quiescePoll m buf ws = some (n, v) →
    1 ≤ n ∧ n ≤ m + 1 ∧ v = buf ++ ((ws.take n).map List.flatten).flatten ∧
    (∀ i, i + 1 < n → ws.getD i [] ≠ []) ∧
    (n ≤ m → ws.getD (n - 1) [] = []) := by
  induction ws with
  | nil =>
    intro m buf n v h
    simp [quiescePoll] at h
  | cons w ws ih =>
    intro m buf n v h
    rw [quiescePoll] at h
    by_cases hc : w ≠ [] ∧ m ≠ 0
    · rw [if_pos hc] at h
      rcases hrec : quiescePoll (m - 1) (buf ++ w.flatten) ws with _ | ⟨n', v'⟩
      · rw [hrec] at h
        simp at h
      · rw [hrec] at h
        simp only [Option.some.injEq, Prod.mk.injEq] at h
        obtain ⟨hn, hv⟩ := h
        obtain ⟨g1, g2, g3, g4, g5⟩ := ih (m - 1) (buf ++ w.flatten) n' v' hrec
        subst hv
        refine ⟨by omega, by omega, ?_, ?_, ?_⟩
        · rw [g3, ← hn, List.take_succ_cons]
          simp [List.append_assoc]
        · intro i hi
          cases i with
          | zero =>
            simpa using hc.1
          | succ i =>
            simp only [List.getD_cons_succ]
            exact g4 i (by omega)
        · intro hle
          have h5 := g5 (by omega)
          rw [← hn]
          cases n' with
          | zero => omega
          | succ n'' =>
            simpa using h5
    · rw [if_neg hc] at h
      simp only [Option.some.injEq, Prod.mk.injEq] at h
      obtain ⟨hn, hv⟩ := h
      subst hv
      refine ⟨by omega, by omega, ?_, ?_, ?_⟩
      · rw [← hn, List.take_succ_cons, List.take_zero]
        simp
      · intro i hi
        omega
      · intro hle
        have hw : w = [] := by
          by_contra hw
          exact hc ⟨hw, by omega⟩
        rw [← hn]
        simpa using hw

/-- C7 as stated is false on the timing bound: with data arriving in every
250 ms window, the budget of 10 data-extended windows is exhausted only at the
11th tick, 2750 ms after the flush — outside the claimed 2.5 s total
timeout. -/
theorem claim_C7_counterexample :
    quiescePoll 10 [] (List.replicate 11 [[49]]) = some (11, List.replicate 11 49) ∧
    ¬ (250 * 11 ≤ 2500) := by
  constructor
  · decide
  · decide

/-- C7 amended: after the payload is flushed the facade polls in fixed 250 ms
windows; each window with data (while the 10-poll budget lasts) clears the
had-data flag and waits another window; the first silent window, or exhaustion
of the budget, invokes the callback exactly once with the accumulated receive
buffer, after which the buffer is cleared — the callback fires at tick
`n ≤ 11`, i.e. within 2.75 s (not within 2.5 s: see the counterexample). -/
theorem claim_C7_amended (ws : List (List (List Nat))) (n : Nat) (v : List Nat)
    (h : quiescePoll 10 [] ws = some (n, v)) :
    1 ≤ n ∧ n ≤ 11 ∧ 250 * n ≤ 2750 ∧
    v = ((ws.take n).map List.flatten).flatten ∧
    (∀ i, i + 1 < n → ws.getD i [] ≠ []) ∧
    (n ≤ 10 → ws.getD (n - 1) [] = []) ∧
    onWritten true ws = ([v], []) := by
  obtain ⟨g1, g2, g3, g4, g5⟩ := quiescePoll_spec ws 10 [] n v h
  refine ⟨g1, g2, by omega, by simpa using g3, g4, g5, ?_⟩
  simp [onWritten, h]

theorem claim_C7_witness :
    quiescePoll 10 [] [[]] = some (1, []) ∧
    250 * 1 ≤ 2750 ∧
    onWritten true [[]] = ([([] : List Nat)], []) := by
  have h : quiescePoll 10 [] [[]] = some (1, []) := by decide
  exact ⟨h, (claim_C7_amended [[]] 1 [] h).2.2.1, (claim_C7_amended [[]] 1 [] h).2.2.2.2.2.2⟩

theorem claim_C1_witness :
    0 < (([[1]] : List (List Nat)).map chunks).flatten.length ∧
    (run (batchRun [[1]] 0) (Act.result false :: [])).fired =
      List.range (completedCount [[1]] 0) := by
  have hlen : 0 < (([[1]] : List (List Nat)).map chunks).flatten.length := by
    simp [chunks]
  exact ⟨hlen, (claim_C1 [[1]] 0).2.2.2 hlen []⟩
